import Mathlib

/-!
Formal model of `scripts/build_geojson.py` (repository ConsultoriaImpulso/ZBE).

The script fetches DATEX-II XML descriptions of low-emission zones, extracts
coordinate rings per `controlledZone` node, orders each ring by angle around
its centroid, closes it, and emits GeoJSON features and feature collections.

The embedding works at the level of the xpath queries the script performs:
an XML document is represented by the list of `controlledZone` nodes found by
`root.xpath(".//*[local-name()='controlledZone']")`, a zone node by its `id`
attribute, its full attribute list, the text of its first `name` descendant,
and its `openlrPolygonCorners` blocks, each block by its `openlrCoordinates`
descendants, and each coordinate node by the text of its `latitude` and
`longitude` children (absent children are `none`).  Python floats are modelled
by exact rationals: none of the claims in question depends on rounding, only
on which strings parse and on the comparison order of the angular sort keys,
which the development relates to the real-valued `atan2` via `Complex.arg`.
-/

namespace ZBE

/-! ## Data model -/

/-- A coordinate pair `(lon, lat)`, GeoJSON order, as produced by
`(lon, lat)` tuples in the script. -/
abbrev Pt := ℚ × ℚ

/-- An `openlrCoordinates` node: text content of its `latitude` and
`longitude` children (`none` when the child is absent, i.e. the xpath list
`lat_n` or `lon_n` is empty). -/
structure CoordNode where
  latText : Option String
  lonText : Option String
deriving DecidableEq

/-- An `openlrPolygonCorners` block: its `openlrCoordinates` descendants in
document order. -/
structure PolygonNode where
  coords : List CoordNode
deriving DecidableEq

/-- A `controlledZone` node: its `id` attribute, all of its attributes, the
raw text of its first `name` descendant, and its `openlrPolygonCorners`
blocks in document order. -/
structure ZoneNode where
  idAttr   : Option String
  attrs    : List (String × String)
  nameText : Option String
  polygons : List PolygonNode
deriving DecidableEq

/-- The two coordinate-grouping topologies of the spec.  `grouped` is the
behaviour of `parse_madrid_like_datex_xml` in src; `flat` is the other
variant the spec describes (all pairs under a zone form one ring). -/
inductive Mode where
  | flat
  | grouped
deriving DecidableEq

/-- A GeoJSON geometry: `Polygon` coordinates are a list of rings (3 nesting
levels), `MultiPolygon` coordinates a list of polygons, each a list of rings
(4 nesting levels). -/
inductive Geometry where
  | polygon : List (List Pt) → Geometry
  | multiPolygon : List (List (List Pt)) → Geometry
deriving DecidableEq

/-- The value of the `"type"` field the script writes for a geometry. -/
def Geometry.typeName : Geometry → String
  | .polygon _ => "Polygon"
  | .multiPolygon _ => "MultiPolygon"

/-- All rings stored in a geometry, in order. -/
def ringsOf : Geometry → List (List Pt)
  | .polygon rs => rs
  | .multiPolygon ps => ps.flatten

/-- A GeoJSON feature as the script builds it: properties `ZONAS`, `ZBE_ID`
(and `CITY`, which `main` adds afterwards, hence optional) and a geometry.
The constant `"type": "Feature"` field is left implicit. -/
structure Feature where
  zonas : String
  zbeId : String
  city  : Option String
  geometry : Geometry
deriving DecidableEq

/-- A named GeoJSON feature collection (`build_feature_collection`).  The
constant `"type": "FeatureCollection"` field is left implicit. -/
structure FeatureCollection where
  name : String
  features : List Feature
deriving DecidableEq

/-- A configured source: a city name and an endpoint URL. -/
structure Source where
  city : String
  url : String
deriving DecidableEq

/-- One output file written by `main`: its path and the serialized
collection. -/
structure OutFile where
  path : String
  content : FeatureCollection
deriving DecidableEq

/-! ## Models of the Python library functions the script calls -/

/-- Models Python `str.strip()`: remove leading and trailing whitespace. -/
def pyStrip (s : String) : String :=
  ⟨((s.data.dropWhile Char.isWhitespace).reverse.dropWhile Char.isWhitespace).reverse⟩

/-- Value of a nonempty all-digit character list, `none` otherwise. -/
def digitsVal (cs : List Char) : Option ℕ :=
  if cs = [] then none
  else
    cs.foldl
      (fun acc c =>
        match acc with
        | none => none
        | some n => if c.isDigit then some (n * 10 + (c.toNat - 48)) else none)
      (some 0)

/-- Models Python `float(s)` on the decimal-literal subset the feed uses:
an optional sign, then digits with an optional fractional part (`"12"`,
`"12."`, `"12.5"`, `".5"`).  Exponent, infinity and NaN forms, which the
feed never contains, are not modelled and fail like any other malformed
text; success is an exact rational.  Python raises `ValueError` on failure,
which the script catches; here failure is `none`. -/
def pyFloat (s : String) : Option ℚ :=
  let signed : ℚ × List Char :=
    match s.data with
    | '+' :: r => (1, r)
    | '-' :: r => (-1, r)
    | r => (1, r)
  match signed.2.splitOn '.' with
  | [ip] => (digitsVal ip).map fun n => signed.1 * n
  | [ip, fp] =>
    if ip = [] ∧ fp = [] then none
    else
      match (if ip = [] then some 0 else digitsVal ip),
            (if fp = [] then some 0 else digitsVal fp) with
      | some a, some b => some (signed.1 * ((a : ℚ) + (b : ℚ) / (10 : ℚ) ^ fp.length))
      | _, _ => none
  | _ => none

/-- Models the Python substring test `needle in haystack` on character
lists. -/
def hasSub (needle : List Char) : List Char → Bool
  | [] => needle.isEmpty
  | c :: rest => (c :: rest).take needle.length == needle || hasSub needle rest

/-! ## Configuration (`SOURCES`, `OUT_DIR`) -/

/-- The configured sources of the script. -/
def SOURCES : List Source :=
  [{ city := "madrid",
     url := "https://infocar.dgt.es/datex2/v3/dgt/zbe/ControledZonePublication/Madrid.xml" }]

/-- The configured output directory. -/
def OUT_DIR : String := "geojson"

/-! ## The script's own helpers -/

/-- Models `_text(node)`: joined descendant text, stripped; `""` for an
absent node. -/
def _text (t : Option String) : String :=
  match t with
  | none => ""
  | some s => pyStrip s

/-- Angular class of a vector, used to order `atan2` values without
computing them: `atan2` of a vector with negative `y` lies in `(-pi, 0)`
(class 0), with `y = 0` and `x >= 0` it is `0` (class 1, including the zero
vector), with positive `y` it lies in `(0, pi)` (class 2), and with `y = 0`
and `x < 0` it is `pi` (class 3). -/
def angClass (v : Pt) : ℕ :=
  if v.2 < 0 then 0
  else if 0 < v.2 then 2
  else if v.1 < 0 then 3
  else 1

/-- Two-dimensional cross product. -/
def cross (v w : Pt) : ℚ := v.1 * w.2 - v.2 * w.1

/-- Decidable comparison of `atan2 v.2 v.1 <= atan2 w.2 w.1` on exact
rational vectors: compare angular classes first; inside the open
half-planes (classes 0 and 2) the sign of the cross product decides, and
classes 1 and 3 each hold a single angle.  Theorem `angleLe_iff` below
proves this Boolean equal to the real comparison of `atan2` values, so
sorting with it is exactly Python's stable sort with the `atan2` key. -/
def angleLe (v w : Pt) : Bool :=
  if angClass v = angClass w then
    if angClass v = 0 ∨ angClass v = 2 then decide (0 ≤ cross v w) else true
  else decide (angClass v < angClass w)

/-- Models the centroid `(cx, cy)` computed by `order_ring`: `cx = sum(p[0]
for p in points) / len(points)` and likewise `cy`.  On the empty list Python
raises `ZeroDivisionError`; the caller's length guard keeps that branch
unreachable (claim C9), and the embedding leaves the junk value of rational
division by zero there. -/
def centroid (points : List Pt) : Pt :=
  ((points.map Prod.fst).sum / points.length,
   (points.map Prod.snd).sum / points.length)

/-- The sort comparator of `order_ring`: the comparison of the `atan2` keys
`atan2(p[1] - cy, p[0] - cx)` of two points, computed by the decidable
`angleLe` on the centered vectors; theorem `ringLe_iff` proves it equal to
comparing the real `atan2` key values themselves. -/
def ringLe (points : List Pt) (p q : Pt) : Bool :=
  angleLe (p.1 - (centroid points).1, p.2 - (centroid points).2)
          (q.1 - (centroid points).1, q.2 - (centroid points).2)

/-- Models `order_ring(points)`: sort the points by the key `atan2(p[1] -
cy, p[0] - cx)` around the centroid.  Python's `sorted` is a stable sort by
the key, embedded as the stable `List.mergeSort` with the key comparison
`ringLe`. -/
def order_ring (points : List Pt) : List Pt :=
  points.mergeSort (ringLe points)

/-- Models the ring-closing step: if the first and last points differ,
append a copy of the first point.  Only ever called on nonempty lists (the
length guard runs first); the `[]` case is therefore arbitrary. -/
def closeRing : List Pt → List Pt
  | [] => []
  | p :: rest =>
    if p = (p :: rest).getLast (List.cons_ne_nil p rest) then p :: rest
    else (p :: rest) ++ [p]

/-- Models the per-ring normalization of the extractor loop body: discard
rings with fewer than 3 points, otherwise order and close them. -/
def buildRing (ring : List Pt) : Option (List Pt) :=
  if ring.length < 3 then none
  else some (closeRing (order_ring ring))

/-- Models one coordinate node of the inner loop: skip the node when the
`latitude` or `longitude` child is missing (`if not lat_n or not lon_n:
continue`) or when either text fails float conversion (`except ValueError:
continue`); the longitude is converted first, as in the source. -/
def parseCoord (c : CoordNode) : Option Pt :=
  if c.latText = none ∨ c.lonText = none then none
  else
    match pyFloat (_text c.lonText), pyFloat (_text c.latText) with
    | some lon, some lat => some (lon, lat)
    | _, _ => none

/-- The candidate ring of one `openlrPolygonCorners` block: the pairs that
parse, in document order. -/
def extractRing (p : PolygonNode) : List Pt :=
  p.coords.filterMap parseCoord

/-- The candidate rings of a zone under each topology.  `grouped` is the
src behaviour: one candidate ring per `openlrPolygonCorners` block.
`flat` is modelled from the spec: the flat-mode variant of the pipeline is
not part of src/; per the spec, all coordinate pairs under the zone, in
document order, form a single ring (in the feed schema every coordinate
node sits inside a corners block, so document order is the concatenation of
the blocks). -/
def candidateRings : Mode → ZoneNode → List (List Pt)
  | .grouped, z => z.polygons.map extractRing
  | .flat, z => [((z.polygons.map PolygonNode.coords).flatten).filterMap parseCoord]

/-- The valid rings of a zone: candidate rings that survive the
fewer-than-3-points filter, ordered and closed. -/
def zoneRings (m : Mode) (z : ZoneNode) : List (List Pt) :=
  (candidateRings m z).filterMap buildRing

/-- Models `zone_id = cz.get("id") or "unknown"`: Python `or` falls through
on the empty string. -/
def zoneId (cz : ZoneNode) : String :=
  match cz.idAttr with
  | none => "unknown"
  | some s => if s = "" then "unknown" else s

/-- Models `zone_name = _text(name_nodes[0]) if name_nodes else zone_id`. -/
def zoneName (cz : ZoneNode) : String :=
  match cz.nameText with
  | some t => pyStrip t
  | none => zoneId cz

/-- The geometry of a zone, `none` when no valid ring remains (`if not
multipolygons: continue`).  In grouped mode (src) the geometry is always a
`MultiPolygon` whose polygons are the single-ring lists `[ring]` the loop
appends.  The flat branch is modelled from the spec: the flat-mode variant
(not part of src/) wraps the zone's single ring as a `Polygon`. -/
def zoneGeometry (m : Mode) (z : ZoneNode) : Option Geometry :=
  match m, zoneRings m z with
  | _, [] => none
  | .flat, r :: _ => some (Geometry.polygon [r])
  | .grouped, rs => some (Geometry.multiPolygon (rs.map fun r => [r]))

/-- The feature emitted for a zone, `none` when the zone has no valid
ring. -/
def zoneFeature (m : Mode) (z : ZoneNode) : Option Feature :=
  (zoneGeometry m z).map fun g =>
    { zonas := zoneName z, zbeId := zoneId z, city := none, geometry := g }

/-- The extractor over a whole document (the list of `controlledZone`
nodes), parameterized by topology. -/
def extractFeatures (m : Mode) (zones : List ZoneNode) : List Feature :=
  zones.filterMap (zoneFeature m)

/-- Models `parse_madrid_like_datex_xml`: the src extractor, which uses the
grouped topology unconditionally. -/
def parse_madrid_like_datex_xml (zones : List ZoneNode) : List Feature :=
  extractFeatures Mode.grouped zones

/-- Models `build_feature_collection`. -/
def build_feature_collection (name : String) (features : List Feature) :
    FeatureCollection :=
  { name := name, features := features }

/-- Models the `CITY` property `main` adds to each feature of a source. -/
def addCity (city : String) (f : Feature) : Feature :=
  { f with city := some city }

/-- The features `main` obtains for one source, on the success path of the
HTTP fetch; the fetched document is supplied as a function from sources to
zone-node lists. -/
def processSource (fetchDoc : Source → List ZoneNode) (s : Source) :
    List Feature :=
  (parse_madrid_like_datex_xml (fetchDoc s)).map (addCity s.city)

/-- The per-city output file of one source. -/
def cityFile (fetchDoc : Source → List ZoneNode) (s : Source) : OutFile :=
  { path := OUT_DIR ++ "/" ++ s.city ++ ".geojson",
    content := build_feature_collection ("zbe_" ++ s.city)
      (processSource fetchDoc s) }

/-- The files `main` writes, in write order: one per configured source, and,
when more than one source is configured, the aggregate collection of all
features in source order under the fixed name `zbe_spain_all`. -/
def mainFiles (fetchDoc : Source → List ZoneNode) (sources : List Source) :
    List OutFile :=
  if 1 < sources.length then
    sources.map (cityFile fetchDoc) ++
      [{ path := OUT_DIR ++ "/spain_all_zbe.geojson",
         content := build_feature_collection "zbe_spain_all"
           ((sources.map (processSource fetchDoc)).flatten) }]
  else sources.map (cityFile fetchDoc)

/-- The known city substrings of the identifier-fallback heuristic: the
configured city names. -/
def knownCities : List String := SOURCES.map Source.city

/-- Modelled from the spec: the identifier-resolution order stated by the
spec and claim C5, including the attribute-scanning fallback that the spec
attributes to the other variant of the pipeline, which is not part of src/:
the explicit `id` attribute if present, otherwise the value of the first
attribute containing a known city substring, otherwise `"unknown"`. -/
def resolve_id_claim (cz : ZoneNode) : String :=
  match cz.idAttr with
  | some s => s
  | none =>
    match cz.attrs.find? (fun kv => knownCities.any fun c => hasSub c.data kv.2.data) with
    | some kv => kv.2
    | none => "unknown"

/-! ## Specification-side real-valued definitions

The spec and the source sort by the key `math.atan2(p[1] - cy, p[0] - cx)`.
These definitions state that key over the reals, so that the theorems can
compare the executable comparator `angleLe` against the genuine `atan2`. -/

/-- The mathematical `atan2`: the argument of the point `(x, y)` of the
plane, in `(-pi, pi]`, with `atan2 0 0 = 0`, exactly the value Python's
`math.atan2` returns on exact inputs.  Realized by the complex argument. -/
noncomputable def atan2 (y x : ℝ) : ℝ := Complex.arg { re := x, im := y }

/-- The complex number whose coordinates are a rational vector. -/
noncomputable def mkC (v : Pt) : ℂ := { re := (v.1 : ℝ), im := (v.2 : ℝ) }

/-- The `atan2` angle of a rational vector. -/
noncomputable def argQ (v : Pt) : ℝ := atan2 (v.2 : ℝ) (v.1 : ℝ)

/-- The arithmetic mean of the points' first coordinates, over the reals,
as the spec words it. -/
noncomputable def centroid_x (points : List Pt) : ℝ :=
  (points.map fun p => (p.1 : ℝ)).sum / points.length

/-- The arithmetic mean of the points' second coordinates, over the reals,
as the spec words it. -/
noncomputable def centroid_y (points : List Pt) : ℝ :=
  (points.map fun p => (p.2 : ℝ)).sum / points.length

/-- The sort key claim C7 describes: `atan2(lat - centroid_lat, lon -
centroid_lon)`. -/
noncomputable def ringKey (points : List Pt) (p : Pt) : ℝ :=
  atan2 ((p.2 : ℝ) - centroid_y points) ((p.1 : ℝ) - centroid_x points)

/-! ## Concrete inputs used by counterexamples and witnesses -/

/-- A coordinate node reading `(lon, lat) = (0, 0)`. -/
def cD : CoordNode := { latText := some "0", lonText := some "0" }

/-- A coordinate node reading `(lon, lat) = (2, 1)`. -/
def cA : CoordNode := { latText := some "1", lonText := some "2" }

/-- A coordinate node with the `latitude` child missing. -/
def cBad : CoordNode := { latText := none, lonText := some "3.7" }

/-- A zone whose single corners block carries the same parseable point three
times: it survives the fewer-than-3-points filter with a degenerate ring. -/
def Zdeg : ZoneNode :=
  { idAttr := none, attrs := [], nameText := none,
    polygons := [{ coords := [cD, cD, cD] }] }

/-- The feature the extractor emits for `Zdeg` in grouped mode. -/
def Fdeg : Feature :=
  { zonas := "unknown", zbeId := "unknown", city := none,
    geometry := Geometry.multiPolygon [[[((0 : ℚ), (0 : ℚ)), (0, 0), (0, 0)]]] }

/-- A zone whose single corners block has only 2 parseable points. -/
def Z2 : ZoneNode :=
  { idAttr := some "Z2", attrs := [], nameText := some "Dos",
    polygons := [{ coords := [cA, cD] }] }

/-- A zone with no `id` attribute but with an attribute value containing the
known city substring `"madrid"`. -/
def Zscan : ZoneNode :=
  { idAttr := none, attrs := [("ref", "zbe_madrid")], nameText := none,
    polygons := [] }

/-! ## The comparator `angleLe` computes the `atan2` order -/

lemma mkC_re (v : Pt) : (mkC v).re = (v.1 : ℝ) := rfl

lemma mkC_im (v : Pt) : (mkC v).im = (v.2 : ℝ) := rfl

lemma argQ_def (v : Pt) : argQ v = Complex.arg (mkC v) := rfl

lemma mkC_ne_zero {v : Pt} (h : v.2 ≠ 0) : mkC v ≠ 0 := by
  intro hc
  have him := congrArg Complex.im hc
  rw [Complex.zero_im, mkC_im] at him
  exact h (by exact_mod_cast him)

lemma angClass_eq_zero_iff (v : Pt) : angClass v = 0 ↔ v.2 < 0 := by
  unfold angClass
  split_ifs <;> simp_all

lemma angClass_eq_two_iff (v : Pt) : angClass v = 2 ↔ 0 < v.2 := by
  unfold angClass
  split_ifs <;> simp_all
  linarith

lemma angClass_spec (v : Pt) :
    (angClass v = 0 ∧ -Real.pi < argQ v ∧ argQ v < 0) ∨
    (angClass v = 1 ∧ 0 ≤ argQ v ∧ argQ v ≤ 0) ∨
    (angClass v = 2 ∧ 0 < argQ v ∧ argQ v < Real.pi) ∨
    (angClass v = 3 ∧ Real.pi ≤ argQ v ∧ argQ v ≤ Real.pi) := by
  rcases lt_trichotomy v.2 0 with h | h | h
  · left
    refine ⟨(angClass_eq_zero_iff v).mpr h, Complex.neg_pi_lt_arg _, ?_⟩
    rw [argQ_def]
    exact Complex.arg_neg_iff.mpr (by rw [mkC_im]; exact_mod_cast h)
  · rcases lt_or_le v.1 0 with hx | hx
    · right; right; right
      have harg : argQ v = Real.pi := by
        rw [argQ_def]
        exact Complex.arg_eq_pi_iff.mpr
          ⟨by rw [mkC_re]; exact_mod_cast hx, by rw [mkC_im]; exact_mod_cast h⟩
      refine ⟨?_, harg.ge, harg.le⟩
      unfold angClass
      rw [if_neg (by simp [h]), if_neg (by simp [h]), if_pos hx]
    · right; left
      have harg : argQ v = 0 := by
        rw [argQ_def]
        exact Complex.arg_eq_zero_iff.mpr
          ⟨by rw [mkC_re]; exact_mod_cast hx, by rw [mkC_im]; exact_mod_cast h⟩
      refine ⟨?_, harg.ge, harg.le⟩
      unfold angClass
      rw [if_neg (by simp [h]), if_neg (by simp [h]), if_neg (not_lt.mpr hx)]
  · right; right; left
    have hz := mkC_ne_zero (ne_of_gt h)
    have h0 : 0 ≤ Complex.arg (mkC v) :=
      Complex.arg_nonneg_iff.mpr (by rw [mkC_im]; exact_mod_cast h.le)
    have hne0 : Complex.arg (mkC v) ≠ 0 := by
      intro hcz
      have h2 := (Complex.arg_eq_zero_iff.mp hcz).2
      rw [mkC_im] at h2
      have : v.2 = 0 := by exact_mod_cast h2
      exact absurd this (ne_of_gt h)
    have hnepi : Complex.arg (mkC v) ≠ Real.pi := by
      intro hcz
      have h2 := (Complex.arg_eq_pi_iff.mp hcz).2
      rw [mkC_im] at h2
      have : v.2 = 0 := by exact_mod_cast h2
      exact absurd this (ne_of_gt h)
    refine ⟨(angClass_eq_two_iff v).mpr h, ?_, ?_⟩
    · rw [argQ_def]; exact lt_of_le_of_ne h0 (Ne.symm hne0)
    · rw [argQ_def]; exact lt_of_le_of_ne (Complex.arg_le_pi _) hnepi

lemma argQ_lt_of_angClass_lt {v w : Pt} (h : angClass v < angClass w) :
    argQ v < argQ w := by
  have hp := Real.pi_pos
  rcases angClass_spec v with ⟨e1, l1, u1⟩ | ⟨e1, l1, u1⟩ | ⟨e1, l1, u1⟩ | ⟨e1, l1, u1⟩ <;>
    rcases angClass_spec w with ⟨e2, l2, u2⟩ | ⟨e2, l2, u2⟩ | ⟨e2, l2, u2⟩ | ⟨e2, l2, u2⟩ <;>
    rw [e1, e2] at h <;>
    first
      | (exfalso; omega)
      | linarith

lemma argQ_bounds_of_zero {v : Pt} (h : angClass v = 0) :
    -Real.pi < argQ v ∧ argQ v < 0 := by
  rcases angClass_spec v with ⟨e, l, u⟩ | ⟨e, l, u⟩ | ⟨e, l, u⟩ | ⟨e, l, u⟩ <;>
    rw [e] at h <;>
    first
      | (exfalso; omega)
      | exact ⟨l, u⟩

lemma argQ_bounds_of_two {v : Pt} (h : angClass v = 2) :
    0 < argQ v ∧ argQ v < Real.pi := by
  rcases angClass_spec v with ⟨e, l, u⟩ | ⟨e, l, u⟩ | ⟨e, l, u⟩ | ⟨e, l, u⟩ <;>
    rw [e] at h <;>
    first
      | (exfalso; omega)
      | exact ⟨l, u⟩

lemma argQ_of_one {v : Pt} (h : angClass v = 1) : argQ v = 0 := by
  rcases angClass_spec v with ⟨e, l, u⟩ | ⟨e, l, u⟩ | ⟨e, l, u⟩ | ⟨e, l, u⟩ <;>
    rw [e] at h <;>
    first
      | (exfalso; omega)
      | exact le_antisymm u l

lemma argQ_of_three {v : Pt} (h : angClass v = 3) : argQ v = Real.pi := by
  rcases angClass_spec v with ⟨e, l, u⟩ | ⟨e, l, u⟩ | ⟨e, l, u⟩ | ⟨e, l, u⟩ <;>
    rw [e] at h <;>
    first
      | (exfalso; omega)
      | exact le_antisymm u l

lemma angClass_mem (v : Pt) :
    angClass v = 0 ∨ angClass v = 1 ∨ angClass v = 2 ∨ angClass v = 3 := by
  unfold angClass
  split_ifs <;> simp

lemma cross_sign_arg {z w : ℂ} (hz : z ≠ 0) (hw : w ≠ 0)
    (h1 : w.arg - z.arg < Real.pi) (h2 : -Real.pi < w.arg - z.arg) :
    z.arg ≤ w.arg ↔ 0 ≤ z.re * w.im - z.im * w.re := by
  have haz : 0 < Complex.abs z := Complex.abs.pos hz
  have haw : 0 < Complex.abs w := Complex.abs.pos hw
  have haz0 : Complex.abs z ≠ 0 := ne_of_gt haz
  have haw0 : Complex.abs w ≠ 0 := ne_of_gt haw
  have hsin : Real.sin (w.arg - z.arg) * (Complex.abs z * Complex.abs w) =
      z.re * w.im - z.im * w.re := by
    rw [Real.sin_sub, Complex.sin_arg, Complex.sin_arg, Complex.cos_arg hz,
      Complex.cos_arg hw]
    field_simp
    ring
  constructor
  · intro hle
    have h0 : 0 ≤ Real.sin (w.arg - z.arg) :=
      Real.sin_nonneg_of_nonneg_of_le_pi (by linarith) (by linarith)
    nlinarith [mul_pos haz haw]
  · intro hcross
    by_contra hlt
    push_neg at hlt
    have hneg : Real.sin (w.arg - z.arg) < 0 :=
      Real.sin_neg_of_neg_of_neg_pi_lt (by linarith) h2
    nlinarith [mul_pos haz haw]

/-- The executable comparator decides exactly the comparison of the real
`atan2` values of the two vectors. -/
theorem angleLe_iff (v w : Pt) : angleLe v w = true ↔ argQ v ≤ argQ w := by
  unfold angleLe
  by_cases hc : angClass v = angClass w
  · rw [if_pos hc]
    have hcw : angClass w = angClass v := hc.symm
    by_cases h02 : angClass v = 0 ∨ angClass v = 2
    · rw [if_pos h02, decide_eq_true_eq]
      have him : (v.2 < 0 ∧ w.2 < 0) ∨ (0 < v.2 ∧ 0 < w.2) := by
        rcases h02 with h0 | h2
        · exact Or.inl ⟨(angClass_eq_zero_iff v).mp h0,
            (angClass_eq_zero_iff w).mp (hcw.trans h0)⟩
        · exact Or.inr ⟨(angClass_eq_two_iff v).mp h2,
            (angClass_eq_two_iff w).mp (hcw.trans h2)⟩
      have hznz : mkC v ≠ 0 := by
        rcases him with ⟨h, _⟩ | ⟨h, _⟩
        · exact mkC_ne_zero (ne_of_lt h)
        · exact mkC_ne_zero (ne_of_gt h)
      have hwnz : mkC w ≠ 0 := by
        rcases him with ⟨_, h⟩ | ⟨_, h⟩
        · exact mkC_ne_zero (ne_of_lt h)
        · exact mkC_ne_zero (ne_of_gt h)
      have hbounds : -Real.pi < argQ w - argQ v ∧ argQ w - argQ v < Real.pi := by
        rcases h02 with h0 | h2
        · have hv := argQ_bounds_of_zero h0
          have hwb := argQ_bounds_of_zero (hcw.trans h0)
          exact ⟨by linarith [hv.1, hv.2, hwb.1, hwb.2],
            by linarith [hv.1, hv.2, hwb.1, hwb.2]⟩
        · have hv := argQ_bounds_of_two h2
          have hwb := argQ_bounds_of_two (hcw.trans h2)
          exact ⟨by linarith [hv.1, hv.2, hwb.1, hwb.2],
            by linarith [hv.1, hv.2, hwb.1, hwb.2]⟩
      have hiff := cross_sign_arg hznz hwnz hbounds.2 hbounds.1
      have hcast : (mkC v).re * (mkC w).im - (mkC v).im * (mkC w).re
          = ((cross v w : ℚ) : ℝ) := by
        rw [mkC_re, mkC_im, mkC_re, mkC_im]
        unfold cross
        push_cast
        ring
      rw [argQ_def, argQ_def, hiff, hcast]
      exact ⟨fun h => by exact_mod_cast h, fun h => by exact_mod_cast h⟩
    · rw [if_neg h02]
      refine iff_of_true rfl ?_
      have h13 : angClass v = 1 ∨ angClass v = 3 := by
        rcases angClass_mem v with h | h | h | h <;> tauto
      rcases h13 with h1 | h3
      · rw [argQ_of_one h1, argQ_of_one (hcw.trans h1)]
      · rw [argQ_of_three h3, argQ_of_three (hcw.trans h3)]
  · rw [if_neg hc, decide_eq_true_eq]
    rcases Nat.lt_trichotomy (angClass v) (angClass w) with hlt | heq | hgt
    · exact iff_of_true hlt (argQ_lt_of_angClass_lt hlt).le
    · exact absurd heq hc
    · exact iff_of_false (by omega) (not_le.mpr (argQ_lt_of_angClass_lt hgt))

/-! ## Properties of `order_ring` -/

lemma centroid_fst_cast (points : List Pt) :
    (((centroid points).1 : ℚ) : ℝ) = centroid_x points := by
  unfold centroid centroid_x
  rw [Rat.cast_div, Rat.cast_list_sum, List.map_map, Rat.cast_natCast]
  rfl

lemma centroid_snd_cast (points : List Pt) :
    (((centroid points).2 : ℚ) : ℝ) = centroid_y points := by
  unfold centroid centroid_y
  rw [Rat.cast_div, Rat.cast_list_sum, List.map_map, Rat.cast_natCast]
  rfl

lemma argQ_center_eq (points : List Pt) (p : Pt) :
    argQ (p.1 - (centroid points).1, p.2 - (centroid points).2) =
      ringKey points p := by
  unfold argQ ringKey atan2
  apply congrArg Complex.arg
  refine Complex.ext ?_ ?_
  · show ((p.1 - (centroid points).1 : ℚ) : ℝ) = (p.1 : ℝ) - centroid_x points
    push_cast
    rw [centroid_fst_cast]
  · show ((p.2 - (centroid points).2 : ℚ) : ℝ) = (p.2 : ℝ) - centroid_y points
    push_cast
    rw [centroid_snd_cast]

/-- The comparator of `order_ring` decides exactly the comparison of the
real `atan2` sort keys of claim C7. -/
theorem ringLe_iff (points : List Pt) (p q : Pt) :
    ringLe points p q = true ↔ ringKey points p ≤ ringKey points q := by
  unfold ringLe
  rw [angleLe_iff, argQ_center_eq, argQ_center_eq]

lemma ringLe_trans (points : List Pt) : ∀ a b c : Pt,
    ringLe points a b = true → ringLe points b c = true →
    ringLe points a c = true := by
  intro a b c h1 h2
  exact (ringLe_iff points a c).mpr
    (le_trans ((ringLe_iff points a b).mp h1) ((ringLe_iff points b c).mp h2))

lemma ringLe_total (points : List Pt) : ∀ a b : Pt,
    (ringLe points a b || ringLe points b a) = true := by
  intro a b
  rcases le_total (ringKey points a) (ringKey points b) with h | h
  · simp [(ringLe_iff points a b).mpr h]
  · simp [(ringLe_iff points b a).mpr h]

lemma order_ring_perm (points : List Pt) : (order_ring points).Perm points :=
  List.mergeSort_perm points (ringLe points)

lemma length_order_ring (points : List Pt) :
    (order_ring points).length = points.length :=
  List.length_mergeSort points

lemma order_ring_sorted (points : List Pt) :
    (order_ring points).Sorted fun p q => ringKey points p ≤ ringKey points q := by
  have hs := List.sorted_mergeSort (ringLe_trans points) (ringLe_total points) points
  exact hs.imp fun hab => (ringLe_iff points _ _).mp hab

lemma order_ring_all_eq {p : Pt} {l : List Pt} (h : ∀ q ∈ l, q = p) :
    order_ring l = l := by
  have hrep : l = List.replicate l.length p := List.eq_replicate_of_mem h
  have hperm : (order_ring l).Perm (List.replicate l.length p) :=
    hrep ▸ order_ring_perm l
  rw [List.perm_replicate.mp hperm, ← hrep]

/-! ## Properties of `closeRing` and `buildRing` -/

lemma closeRing_spec (r : List Pt) (hne : r ≠ []) :
    (closeRing r).head? = (closeRing r).getLast? ∧
    r.length ≤ (closeRing r).length := by
  match r with
  | [] => exact absurd rfl hne
  | p :: rest =>
    simp only [closeRing]
    by_cases h : p = (p :: rest).getLast (List.cons_ne_nil p rest)
    · rw [if_pos h]
      refine ⟨?_, le_refl _⟩
      rw [List.head?_cons, List.getLast?_eq_getLast (p :: rest) (List.cons_ne_nil p rest)]
      exact congrArg some h
    · rw [if_neg h]
      refine ⟨?_, by simp⟩
      rw [List.head?_append, List.getLast?_concat]
      simp

lemma buildRing_some {c r : List Pt} (h : buildRing c = some r) :
    r.head? = r.getLast? ∧ 3 ≤ r.length := by
  unfold buildRing at h
  by_cases hlen : c.length < 3
  · rw [if_pos hlen] at h
    exact absurd h (by simp)
  · rw [if_neg hlen] at h
    have hr : r = closeRing (order_ring c) := by
      have := Option.some.inj h
      exact this.symm
    have hlor : (order_ring c).length = c.length := length_order_ring c
    have hne : order_ring c ≠ [] := by
      intro hz
      rw [hz] at hlor
      simp at hlor
      omega
    obtain ⟨hcl, hle⟩ := closeRing_spec (order_ring c) hne
    rw [hr]
    exact ⟨hcl, by omega⟩

lemma buildRing_three_eq {p : Pt} : buildRing [p, p, p] = some [p, p, p] := by
  unfold buildRing
  rw [if_neg (by simp)]
  have hor : order_ring [p, p, p] = [p, p, p] := by
    apply order_ring_all_eq
    intro q hq
    simp at hq
    tauto
  rw [hor]
  simp only [closeRing]
  rw [if_pos (by simp [List.getLast])]


/-! ## Pipeline lemmas -/

lemma flatten_map_singleton (rs : List (List Pt)) :
    (rs.map fun r => [r]).flatten = rs := by
  induction rs with
  | nil => rfl
  | cons a t ih => simp [ih]

lemma zoneRings_mem_spec {m : Mode} {z : ZoneNode} {r : List Pt}
    (h : r ∈ zoneRings m z) : r.head? = r.getLast? ∧ 3 ≤ r.length := by
  unfold zoneRings at h
  obtain ⟨c, _, hbr⟩ := List.mem_filterMap.mp h
  exact buildRing_some hbr

lemma geometry_rings_sub {m : Mode} {z : ZoneNode} {g : Geometry}
    (hg : zoneGeometry m z = some g) : ∀ r ∈ ringsOf g, r ∈ zoneRings m z := by
  intro r hr
  cases m with
  | flat =>
    cases hzr : zoneRings Mode.flat z with
    | nil =>
      unfold zoneGeometry at hg
      rw [hzr] at hg
      simp at hg
    | cons r0 t =>
      unfold zoneGeometry at hg
      rw [hzr] at hg
      simp at hg
      rw [← hg] at hr
      simp [ringsOf] at hr
      rw [hr]
      exact List.mem_cons_self r0 t
  | grouped =>
    cases hzr : zoneRings Mode.grouped z with
    | nil =>
      unfold zoneGeometry at hg
      rw [hzr] at hg
      simp at hg
    | cons r0 t =>
      unfold zoneGeometry at hg
      rw [hzr] at hg
      simp at hg
      rw [← hg] at hr
      simp [ringsOf, flatten_map_singleton] at hr
      rcases hr with h | h
      · rw [h]
        exact List.mem_cons_self r0 t
      · exact List.mem_cons_of_mem r0 h

/-- C1 (amended): every ring the extractor emits into a feature geometry is
closed (its first coordinate pair equals its last) and has length at least
3; length 4 is not guaranteed, because a ring that is already closed after
the angular reordering (as happens for a ring of identical points) is not
extended. -/
theorem emitted_ring_closed {m : Mode} {z : ZoneNode} {f : Feature} {r : List Pt}
    (hf : zoneFeature m z = some f) (hr : r ∈ ringsOf f.geometry) :
    r.head? = r.getLast? ∧ 3 ≤ r.length := by
  unfold zoneFeature at hf
  cases hg : zoneGeometry m z with
  | none =>
    rw [hg] at hf
    exact absurd hf (by simp)
  | some g =>
    rw [hg] at hf
    simp at hf
    have hfg : f.geometry = g := by rw [← hf]
    rw [hfg] at hr
    exact zoneRings_mem_spec (geometry_rings_sub hg r hr)

unseal Rat.mul Rat.inv Rat.add Rat.sub in
lemma extractRing_three :
    extractRing { coords := [cD, cD, cD] } = [((0 : ℚ), (0 : ℚ)), (0, 0), (0, 0)] := by
  decide

lemma zoneFeature_Zdeg : zoneFeature Mode.grouped Zdeg = some Fdeg := by
  have h1 : zoneRings Mode.grouped Zdeg = [[((0 : ℚ), (0 : ℚ)), (0, 0), (0, 0)]] := by
    unfold zoneRings candidateRings Zdeg
    simp [extractRing_three, List.filterMap_cons, buildRing_three_eq]
  unfold zoneFeature
  have h2 : zoneGeometry Mode.grouped Zdeg =
      some (Geometry.multiPolygon [[[((0 : ℚ), (0 : ℚ)), (0, 0), (0, 0)]]]) := by
    unfold zoneGeometry
    rw [h1]
    simp
  rw [h2]
  simp [zoneName, zoneId, Zdeg, Fdeg]

/-- C1 counterexample: the degenerate zone `Zdeg` is kept (its candidate
ring has 3 points), yet the emitted ring has length 3, not at least 4: the
three points coincide, so the reordered ring is already closed and no
closing point is appended. -/
theorem emitted_ring_length_cex :
    zoneFeature Mode.grouped Zdeg = some Fdeg ∧
    [((0 : ℚ), (0 : ℚ)), (0, 0), (0, 0)] ∈ ringsOf Fdeg.geometry ∧
    ([((0 : ℚ), (0 : ℚ)), (0, 0), (0, 0)]).length < 4 :=
  ⟨zoneFeature_Zdeg, by simp [Fdeg, ringsOf], by simp⟩

/-- C1 witness: the amended theorem applied to the concrete emitted ring of
`Zdeg`. -/
theorem emitted_ring_closed_witness :
    zoneFeature Mode.grouped Zdeg = some Fdeg ∧
    [((0 : ℚ), (0 : ℚ)), (0, 0), (0, 0)] ∈ ringsOf Fdeg.geometry ∧
    (([((0 : ℚ), (0 : ℚ)), (0, 0), (0, 0)]).head? =
        ([((0 : ℚ), (0 : ℚ)), (0, 0), (0, 0)]).getLast? ∧
      3 ≤ ([((0 : ℚ), (0 : ℚ)), (0, 0), (0, 0)]).length) :=
  ⟨zoneFeature_Zdeg, by simp [Fdeg, ringsOf],
    emitted_ring_closed zoneFeature_Zdeg (by simp [Fdeg, ringsOf])⟩

/-- C7: on any nonempty list of points, `order_ring` returns the same
points (a permutation of the input), sorted by the key `atan2(lat -
centroid_lat, lon - centroid_lon)` where the centroid coordinates are the
arithmetic means of the points coordinates. -/
theorem order_ring_sorted_by_key (points : List Pt) (_hne : points ≠ []) :
    (order_ring points).Perm points ∧
    (order_ring points).Sorted fun p q => ringKey points p ≤ ringKey points q :=
  ⟨order_ring_perm points, order_ring_sorted points⟩

/-- C7 witness: the theorem applied to a concrete one-point list. -/
theorem order_ring_sorted_by_key_witness :
    ([((1 : ℚ), (2 : ℚ))] ≠ []) ∧
    ((order_ring [((1 : ℚ), (2 : ℚ))]).Perm [((1 : ℚ), (2 : ℚ))] ∧
      (order_ring [((1 : ℚ), (2 : ℚ))]).Sorted fun p q =>
        ringKey [((1 : ℚ), (2 : ℚ))] p ≤ ringKey [((1 : ℚ), (2 : ℚ))] q) :=
  ⟨by simp, order_ring_sorted_by_key [((1 : ℚ), (2 : ℚ))] (by simp)⟩

/-- C9: the fewer-than-3-points guard runs before `order_ring`: a short
candidate ring is discarded without calling `order_ring`, and whenever
`order_ring` is reached the list length, the divisor of the centroid
computation, is nonzero, so the division-by-zero branch is unreachable. -/
theorem buildRing_guard (ring : List Pt) :
    (ring.length < 3 → buildRing ring = none) ∧
    (3 ≤ ring.length → ((ring.length : ℚ) ≠ 0 ∧
      buildRing ring = some (closeRing (order_ring ring)))) := by
  constructor
  · intro h
    unfold buildRing
    rw [if_pos h]
  · intro h
    refine ⟨Nat.cast_ne_zero.mpr (by omega), ?_⟩
    unfold buildRing
    rw [if_neg (by omega)]

/-- C9 witness: the guard theorem applied to the empty list and to a
concrete 3-point list. -/
theorem buildRing_guard_witness :
    (([] : List Pt).length < 3 ∧ buildRing ([] : List Pt) = none) ∧
    (3 ≤ ([((0 : ℚ), (0 : ℚ)), (0, 0), (0, 0)] : List Pt).length ∧
      ((([((0 : ℚ), (0 : ℚ)), (0, 0), (0, 0)] : List Pt).length : ℚ) ≠ 0 ∧
        buildRing [((0 : ℚ), (0 : ℚ)), (0, 0), (0, 0)] =
          some (closeRing (order_ring [((0 : ℚ), (0 : ℚ)), (0, 0), (0, 0)])))) :=
  ⟨⟨by simp, (buildRing_guard []).1 (by simp)⟩,
    ⟨by simp, (buildRing_guard _).2 (by simp)⟩⟩


/-- C2: the two grouping topologies, as one configurable strategy: in
grouped mode every `openlrPolygonCorners` block yields its own independent
candidate ring (one per block, in document order), and in flat mode all
coordinate pairs under the zone, in document order, form one single
candidate ring, which is exactly the concatenation of the grouped rings. -/
theorem candidateRings_modes (z : ZoneNode) :
    candidateRings Mode.flat z = [(candidateRings Mode.grouped z).flatten] ∧
    candidateRings Mode.grouped z = z.polygons.map extractRing ∧
    (candidateRings Mode.grouped z).length = z.polygons.length := by
  refine ⟨?_, rfl, by simp [candidateRings]⟩
  have hflat : ((z.polygons.map PolygonNode.coords).flatten).filterMap parseCoord =
      (z.polygons.map extractRing).flatten := by
    rw [List.filterMap_flatten, List.map_map]
    rfl
  simp [candidateRings, hflat]

/-- C3: an emitted feature geometry is a `Polygon` (ring list nesting, 3
levels) exactly when the zone geometry is the single flat-mode ring, and a
`MultiPolygon` (singleton-ring polygons, 4 levels) exactly when it is the
set of independent grouped-mode rings, with the `"type"` field matching. -/
theorem geometry_type_matches (z : ZoneNode) (f : Feature) :
    (zoneFeature Mode.flat z = some f →
      ∃ r, f.geometry = Geometry.polygon [r] ∧ f.geometry.typeName = "Polygon") ∧
    (zoneFeature Mode.grouped z = some f →
      ∃ rs : List (List Pt), f.geometry = Geometry.multiPolygon (rs.map fun r => [r]) ∧
        f.geometry.typeName = "MultiPolygon") := by
  constructor
  · intro hf
    unfold zoneFeature at hf
    cases hg : zoneGeometry Mode.flat z with
    | none =>
      rw [hg] at hf
      exact absurd hf (by simp)
    | some g =>
      rw [hg] at hf
      simp at hf
      have hfg : f.geometry = g := by rw [← hf]
      unfold zoneGeometry at hg
      cases hzr : zoneRings Mode.flat z with
      | nil =>
        rw [hzr] at hg
        simp at hg
      | cons r0 t =>
        rw [hzr] at hg
        simp at hg
        refine ⟨r0, ?_, ?_⟩
        · rw [hfg, ← hg]
        · rw [hfg, ← hg]
          rfl
  · intro hf
    unfold zoneFeature at hf
    cases hg : zoneGeometry Mode.grouped z with
    | none =>
      rw [hg] at hf
      exact absurd hf (by simp)
    | some g =>
      rw [hg] at hf
      simp at hf
      have hfg : f.geometry = g := by rw [← hf]
      unfold zoneGeometry at hg
      cases hzr : zoneRings Mode.grouped z with
      | nil =>
        rw [hzr] at hg
        simp at hg
      | cons r0 t =>
        rw [hzr] at hg
        simp at hg
        refine ⟨r0 :: t, ?_, ?_⟩
        · rw [hfg, ← hg]
          rfl
        · rw [hfg, ← hg]
          rfl

/-- C3 witness: the grouped half of the theorem applied to the concrete
zone `Zdeg` and its emitted feature. -/
theorem geometry_type_matches_witness :
    zoneFeature Mode.grouped Zdeg = some Fdeg ∧
    (∃ rs : List (List Pt), Fdeg.geometry = Geometry.multiPolygon (rs.map fun r => [r]) ∧
      Fdeg.geometry.typeName = "MultiPolygon") :=
  ⟨zoneFeature_Zdeg, (geometry_type_matches Zdeg Fdeg).2 zoneFeature_Zdeg⟩

/-- C4: a zone all of whose candidate rings have fewer than 3 valid points
yields no feature, and extraction continues with the remaining zones
unchanged. -/
theorem zone_no_valid_rings_skipped (z : ZoneNode) (zs : List ZoneNode)
    (h : ∀ r ∈ candidateRings Mode.grouped z, r.length < 3) :
    extractFeatures Mode.grouped (z :: zs) = extractFeatures Mode.grouped zs := by
  have hzr : zoneRings Mode.grouped z = [] := by
    unfold zoneRings
    rw [List.filterMap_eq_nil_iff]
    intro r hr
    unfold buildRing
    rw [if_pos (h r hr)]
  have hzf : zoneFeature Mode.grouped z = none := by
    unfold zoneFeature zoneGeometry
    rw [hzr]
    rfl
  unfold extractFeatures
  rw [List.filterMap_cons]
  simp [hzf]

unseal Rat.mul Rat.inv Rat.add Rat.sub in
lemma Z2_rings_short : ∀ r ∈ candidateRings Mode.grouped Z2, r.length < 3 := by
  decide

/-- C4 witness: the theorem applied to the concrete 2-point zone `Z2`; no
feature is emitted for it. -/
theorem zone_no_valid_rings_skipped_witness :
    (∀ r ∈ candidateRings Mode.grouped Z2, r.length < 3) ∧
    extractFeatures Mode.grouped [Z2] = extractFeatures Mode.grouped [] ∧
    extractFeatures Mode.grouped [Z2] = [] := by
  refine ⟨Z2_rings_short, zone_no_valid_rings_skipped Z2 [] Z2_rings_short, ?_⟩
  rw [zone_no_valid_rings_skipped Z2 [] Z2_rings_short]
  rfl

/-- C6: a coordinate node whose `latitude` or `longitude` child is missing,
or whose text fails float parsing, is skipped as a single pair: the
feature extracted for the enclosing zone is exactly the one extracted
without that node, so the remaining pairs, rings and zones are unaffected
and the zone is never aborted. -/
theorem malformed_coord_skipped (m : Mode) (c : CoordNode)
    (h : c.latText = none ∨ c.lonText = none ∨
      (∃ s, c.latText = some s ∧ pyFloat (pyStrip s) = none) ∨
      (∃ s, c.lonText = some s ∧ pyFloat (pyStrip s) = none))
    (idA : Option String) (ats : List (String × String)) (nameT : Option String)
    (ps1 ps2 : List PolygonNode) (pre post : List CoordNode) :
    zoneFeature m
      { idAttr := idA, attrs := ats, nameText := nameT,
        polygons := ps1 ++ (({ coords := pre ++ c :: post } : PolygonNode) :: ps2) } =
    zoneFeature m
      { idAttr := idA, attrs := ats, nameText := nameT,
        polygons := ps1 ++ (({ coords := pre ++ post } : PolygonNode) :: ps2) } := by
  have hc : parseCoord c = none := by
    unfold parseCoord
    by_cases hnone : c.latText = none ∨ c.lonText = none
    · rw [if_pos hnone]
    · rw [if_neg hnone]
      push_neg at hnone
      rcases h with h | h | ⟨s, hs, hp⟩ | ⟨s, hs, hp⟩
      · exact absurd h hnone.1
      · exact absurd h hnone.2
      · have hlat : pyFloat ( _text c.latText) = none := by
          rw [hs]
          simpa [ _text] using hp
        rw [hlat]
        cases pyFloat ( _text c.lonText) <;> rfl
      · have hlon : pyFloat ( _text c.lonText) = none := by
          rw [hs]
          simpa [ _text] using hp
        rw [hlon]
  have hext : extractRing { coords := pre ++ c :: post } =
      extractRing { coords := pre ++ post } := by
    unfold extractRing
    simp [List.filterMap_append, List.filterMap_cons, hc]
  have hcand : candidateRings m
      { idAttr := idA, attrs := ats, nameText := nameT,
        polygons := ps1 ++ (({ coords := pre ++ c :: post } : PolygonNode) :: ps2) } =
      candidateRings m
      { idAttr := idA, attrs := ats, nameText := nameT,
        polygons := ps1 ++ (({ coords := pre ++ post } : PolygonNode) :: ps2) } := by
    cases m with
    | grouped => simp [candidateRings, List.map_append, hext]
    | flat =>
      simp [candidateRings, List.map_append, List.flatten_append,
        List.filterMap_append, List.filterMap_cons, hc]
  have hrings : zoneRings m
      { idAttr := idA, attrs := ats, nameText := nameT,
        polygons := ps1 ++ (({ coords := pre ++ c :: post } : PolygonNode) :: ps2) } =
      zoneRings m
      { idAttr := idA, attrs := ats, nameText := nameT,
        polygons := ps1 ++ (({ coords := pre ++ post } : PolygonNode) :: ps2) } := by
    unfold zoneRings
    rw [hcand]
  unfold zoneFeature zoneGeometry
  rw [hrings]
  rfl

/-- C6 witness: the theorem applied to the concrete node `cBad`, whose
`latitude` child is missing, between two good points of a zone. -/
theorem malformed_coord_skipped_witness :
    (cBad.latText = none ∨ cBad.lonText = none ∨
      (∃ s, cBad.latText = some s ∧ pyFloat (pyStrip s) = none) ∨
      (∃ s, cBad.lonText = some s ∧ pyFloat (pyStrip s) = none)) ∧
    zoneFeature Mode.grouped
      { idAttr := some "Z1", attrs := [], nameText := some "Centro",
        polygons := [] ++ (({ coords := [cA] ++ cBad :: [cD] } : PolygonNode) :: []) } =
    zoneFeature Mode.grouped
      { idAttr := some "Z1", attrs := [], nameText := some "Centro",
        polygons := [] ++ (({ coords := [cA] ++ [cD] } : PolygonNode) :: []) } :=
  ⟨Or.inl rfl, malformed_coord_skipped Mode.grouped cBad (Or.inl rfl)
    (some "Z1") [] (some "Centro") [] [] [cA] [cD]⟩


/-- C5 counterexample: a zone with no `id` attribute but with an attribute
value containing the known city substring `"madrid"` resolves to
`"unknown"` in src: the claimed attribute-scanning fallback step never
runs in this variant, so the resolution disagrees with the claimed order
at this input. -/
theorem zoneId_resolution_cex :
    zoneId Zscan = "unknown" ∧
    (Zscan.attrs.any fun kv => knownCities.any fun c => hasSub c.data kv.2.data) = true ∧
    resolve_id_claim Zscan = "zbe_madrid" ∧
    resolve_id_claim Zscan ≠ zoneId Zscan := by
  refine ⟨rfl, by decide, by decide, by decide⟩

/-- C5 (amended): the identifier is the explicit `id` attribute when it is
present and non-empty, and the literal `"unknown"` otherwise; no
attribute-scanning step exists in this variant, so the result is
independent of the attribute list. -/
theorem zoneId_resolution (idA : Option String) (ats ats2 : List (String × String))
    (nameT : Option String) (ps : List PolygonNode) :
    zoneId { idAttr := idA, attrs := ats, nameText := nameT, polygons := ps } =
      (match idA with
        | none => "unknown"
        | some s => if s = "" then "unknown" else s) ∧
    zoneId { idAttr := idA, attrs := ats, nameText := nameT, polygons := ps } =
      zoneId { idAttr := idA, attrs := ats2, nameText := nameT, polygons := ps } :=
  ⟨rfl, rfl⟩

/-- C8: after all configured sources are processed, the aggregate file is
written exactly when more than one source is configured; when written it is
the last file, under the fixed collection name `zbe_spain_all` and path,
and contains the features of all sources concatenated in
source-configuration order. -/
theorem aggregate_file_iff (fetchDoc : Source → List ZoneNode)
    (sources : List Source) :
    (1 < sources.length →
      mainFiles fetchDoc sources = sources.map (cityFile fetchDoc) ++
        [{ path := OUT_DIR ++ "/spain_all_zbe.geojson",
           content := build_feature_collection "zbe_spain_all"
             ((sources.map (processSource fetchDoc)).flatten) }]) ∧
    (sources.length ≤ 1 →
      mainFiles fetchDoc sources = sources.map (cityFile fetchDoc)) := by
  constructor
  · intro h
    unfold mainFiles
    rw [if_pos h]
  · intro h
    unfold mainFiles
    rw [if_neg (by omega)]

/-- C8 witness: two configured sources produce the two per-city files plus
the aggregate, and the single-source configuration `SOURCES` produces no
aggregate. -/
theorem aggregate_file_iff_witness :
    (1 < ([{ city := "a", url := "ua" }, { city := "b", url := "ub" }] : List Source).length ∧
      mainFiles (fun _ => []) [{ city := "a", url := "ua" }, { city := "b", url := "ub" }] =
        ([{ city := "a", url := "ua" }, { city := "b", url := "ub" }] : List Source).map
            (cityFile (fun _ => [])) ++
          [{ path := OUT_DIR ++ "/spain_all_zbe.geojson",
             content := build_feature_collection "zbe_spain_all"
               ((([{ city := "a", url := "ua" }, { city := "b", url := "ub" }] : List Source).map
                   (processSource (fun _ => []))).flatten) }]) ∧
    (SOURCES.length ≤ 1 ∧
      mainFiles (fun _ => []) SOURCES = SOURCES.map (cityFile (fun _ => []))) :=
  ⟨⟨by decide, (aggregate_file_iff (fun _ => []) _).1 (by decide)⟩,
    ⟨by decide, (aggregate_file_iff (fun _ => []) SOURCES).2 (by decide)⟩⟩

/-- C10 counterexample: an `id` attribute holding the non-empty string
`"unknown"` also resolves to `"unknown"`, so the claimed equivalence
(resolved id is `"unknown"` iff the attribute is absent or empty) fails in
the forward direction. -/
theorem zoneId_unknown_iff_cex :
    zoneId { idAttr := some "unknown", attrs := [], nameText := none, polygons := [] } =
      "unknown" ∧
    ({ idAttr := some "unknown", attrs := [], nameText := none,
        polygons := [] } : ZoneNode).idAttr ≠ none ∧
    ({ idAttr := some "unknown", attrs := [], nameText := none,
        polygons := [] } : ZoneNode).idAttr ≠ some "" := by
  refine ⟨by decide, by decide, by decide⟩

/-- C10 (amended): the resolved identifier is `"unknown"` exactly when the
`id` attribute is absent, empty, or itself the literal `"unknown"`. -/
theorem zoneId_unknown_iff (cz : ZoneNode) :
    zoneId cz = "unknown" ↔
      (cz.idAttr = none ∨ cz.idAttr = some "" ∨ cz.idAttr = some "unknown") := by
  cases h : cz.idAttr with
  | none => simp [zoneId, h]
  | some s =>
    by_cases hs : s = "" <;> simp [zoneId, h, hs]

end ZBE
